import Mathlib

/-!
Verification of the Mishri orchestration engine

Shallow embedding of the core orchestration code of the Mishri agent
(`internal/governance/policy.go`, `internal/agent/brain.go`) together with
proofs of the specified properties.

Modelling conventions:
* Go strings are Lean `String`s; Go `int` is `Int` where negative sentinels
  occur (`lastCompletedCount = -1`), `Nat` for loop counters and lengths.
* `time.Duration` backoff values are modelled in whole seconds (`Nat`).
* The external reasoning service (LLM) is modelled as a script of responses
  consumed in order; external capability implementations are modelled as
  outcome functions; the OS file holding the scratchpad is modelled as an
  `Option String` (`none` = file does not exist).
* I/O side effects that do not influence control flow or the data the
  properties talk about (persistent SQL store writes, logging, token-cost
  accounting, status display) are not modelled.
-/

namespace Mishri

/-- The apostrophe character, built from its code point so it can be spliced
into modelled Go format strings. -/
def apos : String := String.singleton (Char.ofNat 39)

/-! ## PolicyEngine (`internal/governance/policy.go`) -/

/-- `governance.Effect` -/
inductive Effect
  | allow
  | deny
deriving DecidableEq, Repr

/-- `governance.Request` -/
structure Request where
  tool : String
  arguments : String
  chatID : String
deriving DecidableEq, Repr

/-- `governance.Result` -/
structure GResult where
  effect : Effect
  reason : String
deriving DecidableEq, Repr

/-- A compiled `regexp.Regexp` as stored in `DeniedRegex`: its source string
(`re.String()`) plus its matching relation (`re.MatchString`), kept abstract
because the regex engine is an external library. -/
structure GoPattern where
  src : String
  isMatch : String → Bool

/-- `governance.DefaultPolicyEngine`: `DeniedTools` is a `map[string]bool`
holding `true` for each name passed to `DenyTool`, modelled as the list of
denied names; `DeniedRegex` is the ordered slice of compiled patterns. -/
structure DefaultPolicyEngine where
  deniedTools : List String
  deniedRegex : List GoPattern

/-- Reason string of a name-based deny:
`fmt.Sprintf` of `Tool %s is restricted by system policy` around `req.Tool`, single quotes included. -/
def deniedToolReason (tool : String) : String :=
  "Tool " ++ apos ++ tool ++ apos ++ " is restricted by system policy"

/-- Reason string of a pattern-based deny:
`fmt.Sprintf("Arguments match restricted pattern: %s", re.String())`. -/
def deniedPatternReason (src : String) : String :=
  "Arguments match restricted pattern: " ++ src

/-- Default allow reason. -/
def defaultAllowReason : String := "Approved by default policy"

/-- `DefaultPolicyEngine.Evaluate`. The Go method returns `(Result, error)`;
the second component models the `error` value (`none` = `nil`). -/
def Evaluate (e : DefaultPolicyEngine) (req : Request) : GResult × Option String :=
  if e.deniedTools.contains req.tool then
    (⟨Effect.deny, deniedToolReason req.tool⟩, none)
  else
    match e.deniedRegex.find? (fun p => p.isMatch req.arguments) with
    | some p => (⟨Effect.deny, deniedPatternReason p.src⟩, none)
    | none => (⟨Effect.allow, defaultAllowReason⟩, none)

/-! ## WorkerBrain.executeWithRetry (`internal/agent/brain.go:279-330`) -/

/-- Outcome of one `tool.Execute(toolCtx, args)` call: `ok res` models
`(res, nil)`; `fail res errMsg timedOut` models `(res, err)` with `err ≠ nil`,
where `timedOut` records whether `toolCtx.Err() == context.DeadlineExceeded`
(the 30-second per-call timeout fired). -/
inductive ExecOutcome
  | ok (res : String)
  | fail (res : String) (errMsg : String) (timedOut : Bool)

/-- Result of `executeWithRetry`: the returned `(string, error)` pair plus
instrumentation recording how many `tool.Execute` calls were made and which
backoff delays (in seconds) were slept. -/
structure RetryOut where
  result : String
  err : Option String
  attempts : Nat
  delays : List Nat
deriving DecidableEq, Repr

/-- Timeout result text:
`fmt.Sprintf("Error: Tool %s timed out after 30 seconds", tool.Name())`. -/
def toolTimeoutText (name : String) : String :=
  "Error: Tool " ++ name ++ " timed out after 30 seconds"

/-- The retry loop body of `executeWithRetry`. `pol` is the (per-request
constant) outcome of `b.Governance.Evaluate`; `exec i` the outcome of the
`i`-th `tool.Execute` call; `fuel` counts remaining loop iterations
(`maxRetries - i`); `backoff` the current backoff in seconds; `lastErr` and
`result` the mutable locals of the Go loop; `att`/`delays` instrumentation. -/
def retryGo (pol : Except String GResult) (name : String) (exec : Nat → ExecOutcome) :
    Nat → Nat → Nat → Option String → String → Nat → List Nat → RetryOut
  | 0, _, _, lastErr, result, att, delays => ⟨result, lastErr, att, delays⟩
  | fuel + 1, i, backoff, _, _, att, delays =>
    match pol with
    | Except.error e => ⟨"", some ("policy evaluation failed: " ++ e), att, delays⟩
    | Except.ok pr =>
      if pr.effect = Effect.deny then
        ⟨"Policy Error: " ++ pr.reason, none, att, delays⟩
      else
        match exec i with
        | ExecOutcome.ok res => ⟨res, none, att + 1, delays⟩
        | ExecOutcome.fail res msg timedOut =>
          if timedOut then
            ⟨toolTimeoutText name, some msg, att + 1, delays⟩
          else
            retryGo pol name exec fuel (i + 1) (backoff * 2) (some msg) res (att + 1)
              (delays ++ [backoff])

/-- `WorkerBrain.executeWithRetry`: `maxRetries := 3`, `backoff := 1s`. -/
def executeWithRetry (pol : Except String GResult) (name : String)
    (exec : Nat → ExecOutcome) : RetryOut :=
  retryGo pol name exec 3 0 1 none "" 0 []

/-! ## Transcript messages

`llms.MessageContent` is modelled by role, tool name (for tool-response
parts, `""` otherwise) and textual content; tool-call parts attached to
assistant messages are elided (they duplicate the script). -/

/-- One transcript message. -/
structure MsgG where
  role : String
  name : String
  content : String
deriving DecidableEq, Repr

def sysMsg (c : String) : MsgG := ⟨"system", "", c⟩

def humanMsg (c : String) : MsgG := ⟨"human", "", c⟩

def aiMsg (c : String) : MsgG := ⟨"ai", "", c⟩

/-- A `ChatMessageTypeTool` message carrying a `ToolCallResponse`. -/
def toolMsg (name content : String) : MsgG := ⟨"tool", name, content⟩

/-! ## WorkerBrain.Think (`internal/agent/brain.go:54-277`) -/

/-- An entry of `tools.Registry` (a `map[string]Tool`): its
name and description, with `Execute` modelled as an outcome per
(arguments, attempt index) so retried calls can behave differently. -/
structure ToolG where
  name : String
  description : String
  exec : String → Nat → ExecOutcome

/-- External collaborators of the worker loop: the registry, the policy
engine outcome per (tool name, arguments), the `encoding/json` extraction of
the `content` field of `write_scratchpad` arguments (`none` = unmarshal
error), and the OS error text produced when reading an absent scratchpad
file. -/
structure WorkerEnv where
  registry : List ToolG
  pol : String → String → Except String GResult
  jsonContent : String → Option String
  osReadErr : String

/-- One requested tool call (`llms.ToolCall`). -/
structure WCall where
  id : String
  name : String
  args : String
deriving DecidableEq, Repr

/-- One worker-model response (`GenerateContent` result): a per-turn
timeout, another generation error, or a choice with content and tool
calls. -/
inductive WResp
  | timeout
  | errResp (msg : String)
  | reply (content : String) (calls : List WCall)

/-- The scratchpad heading the worker writes under. -/
def workerDataHeading : String := "\n#### Worker Data:\n"

/-- `os.OpenFile(..., O_APPEND|O_CREATE|O_WRONLY, ...)` followed by
`WriteString`: creates the file if absent, appends otherwise. -/
def scratchAppend (s : Option String) (txt : String) : Option String :=
  some (s.getD "" ++ txt)

/-- The `read_scratchpad` built-in of the worker (`os.ReadFile`): an absent file
yields the formatted OS error, otherwise the file content. -/
def workerReadScratch (env : WorkerEnv) (scratch : Option String) : String :=
  match scratch with
  | none => "Error reading scratchpad: " ++ env.osReadErr
  | some s => s

/-- Handling of one tool call inside `WorkerBrain.Think` (brain.go:213-269):
returns the updated scratchpad and the transcript extended with the
observation message. -/
def processCall (env : WorkerEnv) (scratch : Option String) (msgs : List MsgG)
    (c : WCall) : Option String × List MsgG :=
  if c.name = "read_scratchpad" then
    (scratch, msgs ++ [toolMsg c.name (workerReadScratch env scratch)])
  else if c.name = "write_scratchpad" then
    match env.jsonContent c.args with
    | none =>
      (scratch, msgs ++ [toolMsg c.name "Error parsing write_scratchpad args: unmarshal error"])
    | some content =>
      (scratchAppend scratch (workerDataHeading ++ content ++ "\n"),
        msgs ++ [toolMsg c.name
          ("Successfully wrote " ++ toString content.length ++ " bytes to scratchpad.")])
  else
    match env.registry.find? (fun t => t.name = c.name) with
    | none => (scratch, msgs ++ [toolMsg c.name ("Error: Tool " ++ c.name ++ " not found")])
    | some t =>
      let r := executeWithRetry (env.pol c.name c.args) t.name (t.exec c.args)
      let result :=
        match r.err with
        | some e => "Error: " ++ e
        | none => r.result
      (scratch, msgs ++ [toolMsg c.name result])

/-- Result of a worker run: the returned `(string, error)` pair as an
`Except`, the final scratchpad file state, and the final transcript. -/
structure WOut where
  out : Except String String
  scratch : Option String
  msgs : List MsgG

/-- Fallback answer used when the loop ends without a free-text response. -/
def workerMaxStepsText : String :=
  "Thinking too much... I" ++ apos ++
    "ve reached the maximum reasoning steps. Please try a simpler request."

/-- The ReAct loop of `WorkerBrain.Think` (brain.go:153-276). `script turn`
is the model response of the given turn; `fuel` the remaining iterations of
the `maxSteps := 10` loop. Exhausting the loop, or a reply with no tool
calls and empty content, yields the `workerMaxStepsText` fallback. -/
def workerLoop (env : WorkerEnv) (script : Nat → WResp) :
    Nat → Nat → List MsgG → Option String → WOut
  | _, 0, msgs, scratch => ⟨Except.ok workerMaxStepsText, scratch, msgs⟩
  | turn, fuel + 1, msgs, scratch =>
    match script turn with
    | WResp.timeout => ⟨Except.error "worker reasoning turn timed out", scratch, msgs⟩
    | WResp.errResp m => ⟨Except.error m, scratch, msgs⟩
    | WResp.reply content calls =>
      let msgs1 := msgs ++ [aiMsg content]
      if calls.isEmpty then
        ⟨Except.ok (if content = "" then workerMaxStepsText else content), scratch, msgs1⟩
      else
        let sm := calls.foldl (fun (acc : Option String × List MsgG) c =>
          processCall env acc.1 acc.2 c) (scratch, msgs1)
        workerLoop env script (turn + 1) fuel sm.2 sm.1

/-- `WorkerBrain.Think`: sets up the transcript (system prompt if non-empty,
then the human input) and runs the reasoning loop with `maxSteps := 10` over
the scratchpad file of the task. -/
def workerThink (env : WorkerEnv) (script : Nat → WResp) (systemPrompt input : String)
    (scratch : Option String) : WOut :=
  let msgs0 := (if systemPrompt = "" then [] else [sysMsg systemPrompt]) ++ [humanMsg input]
  workerLoop env script 0 10 msgs0 scratch

/-! ## The capability manifest of the worker (`brain.go:88-151`) -/

/-- An `llms.FunctionDefinition` offered to the reasoning service (the JSON
parameter schema is opaque payload and is not modelled). -/
structure ToolDef where
  name : String
  description : String
deriving DecidableEq, Repr

/-- The built-in `read_scratchpad` function definition. -/
def readScratchDef : ToolDef :=
  ⟨"read_scratchpad", "Read the current task scratchpad to see details from previous steps."⟩

/-- The built-in `write_scratchpad` function definition (description
abbreviated to its first sentence). -/
def writeScratchDef : ToolDef :=
  ⟨"write_scratchpad", "Append detailed data to the task scratchpad for future steps to use."⟩

/-- Manifest construction in `WorkerBrain.Think`: filter the registry by the
whitelist unless `allowedTools` is `nil` (`allowed = none`), then append each
scratchpad built-in unless a tool of that name is already present. -/
def buildWorkerTools (registry : List ToolDef) (allowed : Option (List String)) : List ToolDef :=
  let llmTools := registry.filter (fun t =>
    match allowed with
    | none => true
    | some ws => ws.contains t.name)
  let hasR := llmTools.any (fun t => t.name = "read_scratchpad")
  let hasW := llmTools.any (fun t => t.name = "write_scratchpad")
  let l1 := if hasR then llmTools else llmTools ++ [readScratchDef]
  if hasW then l1 else l1 ++ [writeScratchDef]

/-! ## Plan data model (`store.Step`, the `propose_plan` schema) -/

/-- `store.Step` as proposed/synced by the planner: `{id, description,
status ∈ {"pending","completed","failed"}, result, tools}`. -/
structure StepG where
  id : Int
  description : String
  status : String
  result : String
  tools : List String
deriving DecidableEq, Repr

/-- `store.Plan`: the ordered step list unmarshalled from a `propose_plan`
call. -/
structure PlanG where
  steps : List StepG
deriving DecidableEq, Repr

/-! ## The per-step tool lock (`brain.go:402-404, 481-502`) -/

/-- `stepToolLock`, a Go `map[int][]string`, as an association list with
map semantics (at most one binding per key). -/
abbrev LockMap := List (Int × List String)

/-- Map lookup `stepToolLock[s.ID]`. -/
def lockFind (l : LockMap) (k : Int) : Option (List String) :=
  match l.find? (fun p => p.1 = k) with
  | some p => some p.2
  | none => none

/-- Map deletion `delete(stepToolLock, s.ID)`. -/
def lockErase (l : LockMap) (k : Int) : LockMap :=
  List.filter (fun p => !(p.1 = k : Bool)) l

/-- Map insertion `stepToolLock[s.ID] = s.Tools`. -/
def lockAdd (l : LockMap) (k : Int) (v : List String) : LockMap :=
  (k, v) :: lockErase l k

/-- The per-step body of the lock-enforcement pass (brain.go:484-497):
a failed step releases its lock; a pending step is forced back to its
locked tool list, or locks its (non-empty) tool list on first sight. -/
def lockStepUpdate (lock : LockMap) (s : StepG) : LockMap × StepG :=
  if s.status = "failed" then
    (lockErase lock s.id, s)
  else if s.status = "pending" then
    match lockFind lock s.id with
    | some locked => (lock, { s with tools := locked })
    | none =>
      if s.tools.length > 0 then (lockAdd lock s.id s.tools, s) else (lock, s)
  else (lock, s)

/-- Output of the plan pass: the updated lock map, the (tool-corrected)
steps, and the selected next step (the first one whose status is pending or
failed), as mutated by the pass. -/
structure LockPassOut where
  lock : LockMap
  steps : List StepG
  next : Option StepG
deriving Repr

/-- The loop over `plan.Steps` (brain.go:481-502), carrying the next-step
selection (`nextStep == nil` modelled by `nxt = none`). -/
def lockPassGo (lock : LockMap) (nxt : Option StepG) : List StepG → LockPassOut
  | [] => ⟨lock, [], nxt⟩
  | s :: rest =>
    let ls := lockStepUpdate lock s
    let nxt1 :=
      match nxt with
      | some _ => nxt
      | none => if s.status = "pending" ∨ s.status = "failed" then some ls.2 else none
    let out := lockPassGo ls.1 nxt1 rest
    ⟨out.lock, ls.2 :: out.steps, out.next⟩

/-- The full pass, started with `nextStep := nil`. -/
def lockPass (lock : LockMap) (steps : List StepG) : LockPassOut :=
  lockPassGo lock none steps

/-! ## Deadlock detection (`brain.go:441-459`) -/

/-- `completedCount`: the number of steps with status `"completed"`. -/
def countCompleted (steps : List StepG) : Int :=
  Int.ofNat (steps.filter (fun s => s.status = "completed")).length

/-- One deadlock-detection update: `none` models the deadlock abort;
`some (last, stuck)` the updated `lastCompletedCount`/`stuckTurns`. -/
def deadlockUpdate (lastCompleted : Int) (stuck : Nat) (completedCount : Int) :
    Option (Int × Nat) :=
  if completedCount ≤ lastCompleted then
    if stuck + 1 ≥ 4 then none else some (lastCompleted, stuck + 1)
  else some (completedCount, 0)

/-- Deadlock detection over a sequence of proposed plans (one per planning
iteration that produced a plan): `true` iff the loop aborts. -/
def deadlockRun (lastCompleted : Int) (stuck : Nat) : List (List StepG) → Bool
  | [] => false
  | steps :: rest =>
    match deadlockUpdate lastCompleted stuck (countCompleted steps) with
    | none => true
    | some ls => deadlockRun ls.1 ls.2 rest

/-- The deadlock diagnostic returned on abort (returned as the answer text
with a `nil` error). -/
def deadlockText : String :=
  "Deadlock detected: The orchestration is not making progress. Multiple turns with no new completed steps. Aborting to prevent infinite loop."

/-! ## MasterBrain.plan (`brain.go:572-725`) -/

/-- A planner tool call: `read_scratchpad`, `propose_plan` (with `none`
modelling arguments `json.Unmarshal` rejects), or any other
(ignored) function name. -/
inductive MCall
  | readScratch
  | propose (p : Option PlanG)
  | other (name : String)

/-- One master-model response: a planning-turn timeout, another generation
error, or a choice with content and planner tool calls. -/
inductive MasterResp
  | timeout
  | errResp (msg : String)
  | reply (content : String) (calls : List MCall)

def isReadScratch : MCall → Bool
  | MCall.readScratch => true
  | _ => false

def proposePayload : MCall → Option (Option PlanG)
  | MCall.propose p => some p
  | _ => none

/-- The scratchpad read of the master (brain.go:672-676): the ignored
`os.ReadFile` error makes an absent file read as empty; empty text is
replaced by the explicit sentinel. -/
def masterReadScratch (scratch : Option String) : String :=
  let data := scratch.getD ""
  if data = "" then "Scratchpad is empty or doesn" ++ apos ++ "t exist yet." else data

/-- Outcome of one `b.plan` call: a parsed plan, a free-text final answer
(`isDone`), or a planning error. -/
inductive PlanOutcome
  | pplan (p : PlanG)
  | ptext (t : String)
  | perr (e : String)

/-- `MasterBrain.plan`: consumes master-model responses from `script`;
returns the remaining script, the updated orchestration context and the
outcome. Pass 1 answers every `read_scratchpad` call, pass 2 returns at the
first `propose_plan`; a scratchpad-only turn recurses with `depth + 1`,
failing above depth 3. An exhausted script models a reasoning service that
stopped responding and maps to a generation error. -/
def planFn (scratch : Option String) :
    List MasterResp → List MsgG → Nat → List MasterResp × List MsgG × PlanOutcome
  | [], msgs, _ => ([], msgs, PlanOutcome.perr "reasoning service unavailable")
  | resp :: rest, msgs, depth =>
    if depth > 3 then
      (resp :: rest, msgs, PlanOutcome.perr "master planning exceeded maximum tool recursion depth (3)")
    else
      match resp with
      | MasterResp.timeout => (rest, msgs, PlanOutcome.perr "master planning turn timed out")
      | MasterResp.errResp m => (rest, msgs, PlanOutcome.perr m)
      | MasterResp.reply content calls =>
        let msgs1 := msgs ++ [aiMsg content]
        let msgs2 := msgs1 ++ calls.filterMap (fun c =>
          if isReadScratch c then
            some (toolMsg "read_scratchpad" (masterReadScratch scratch))
          else none)
        match calls.findSome? proposePayload with
        | some (some p) =>
          (rest, msgs2 ++ [toolMsg "propose_plan" "Plan received."], PlanOutcome.pplan p)
        | some none =>
          (rest, msgs2, PlanOutcome.perr "failed to parse propose_plan arguments")
        | none =>
          if calls.any isReadScratch then
            planFn scratch rest msgs2 (depth + 1)
          else if content = "" then
            (rest, msgs2, PlanOutcome.perr "planner failed to provide a plan or text response")
          else (rest, msgs2, PlanOutcome.ptext content)

/-! ## MasterBrain.Think (`brain.go:363-570`) -/

/-- `trimOrchContext` (brain.go:334-342): keep the system message (index 0)
plus the most recent `maxRecent` messages. -/
def trimOrchContext (msgs : List MsgG) (maxRecent : Nat) : List MsgG :=
  if msgs.length ≤ 1 + maxRecent then msgs
  else msgs.take 1 ++ msgs.drop (msgs.length - maxRecent)

/-- The consolidation abort diagnostic (brain.go:509). -/
def consolidationText : String :=
  "All steps completed but the planner failed to produce a final answer. Please try again."

/-- The forcing instruction injected on a consolidation turn (brain.go:514). -/
def forcingMsg : MsgG :=
  humanMsg "All planned steps are completed. You MUST now provide your final consolidated answer to the user as plain text, NOT as a tool call."

/-- The iteration-budget diagnostic (brain.go:569). -/
def budgetText : String :=
  "I" ++ apos ++ "ve reached the maximum number of steps for this task. Please try a simpler request."

/-- Result of `MasterBrain.Think`: `answer t` models `return t, nil` (all
diagnostics — deadlock, consolidation, budget — are returned this way);
`failure e` models `return "", err` with `err ≠ nil`. -/
inductive MasterOutcome
  | answer (t : String)
  | failure (e : String)
deriving DecidableEq, Repr

/-- The step executor as seen by the orchestration loop: call index,
scratchpad state, step id, worker input, allowed tools ↦ the worker
`(string, error)` result and the scratchpad it leaves behind. -/
abbrev WkFun := Nat → Option String → Int → String → List String →
  Except String String × Option String

/-- Orchestration-loop state: the master script, the scratchpad file, the
orchestration context, `stepToolLock`, `lastCompletedCount`, `stuckTurns`,
`consolidationTurns`, plus instrumentation: the number of worker calls made
and a trace of `(step id, final status)` per executed step. -/
structure MState where
  script : List MasterResp
  scratch : Option String
  orch : List MsgG
  lock : LockMap
  lastCompleted : Int
  stuck : Nat
  consolidation : Nat
  workerCalls : Nat
  trace : List (Int × String)

/-- Scratchpad block appended after each step execution (brain.go:540). -/
def stepResultBlock (id : Int) (status result : String) : String :=
  "\n### Step " ++ toString id ++ " Result (" ++ status ++ "):\n" ++ result ++ "\n"

/-- Truncation of a step result for the orchestration context
(brain.go:556-559). -/
def briefOf (result : String) : String :=
  if result.length > 500 then result.take 500 ++ "... [truncated, full detail in scratchpad]"
  else result

/-- The human message reporting a step result (brain.go:561-566). -/
def stepReportMsg (id : Int) (status brief : String) : MsgG :=
  humanMsg ("Step " ++ toString id ++ " result: " ++ status ++ "\nOutput: " ++ brief ++
    "\n\nFull details are in the scratchpad. Please update the plan or provide the final answer.")

/-- One iteration of the orchestration loop (brain.go:423-567): trim the
context, ask for a plan, run deadlock detection on the proposed plan,
enforce the tool lock and select the next step, then either consolidate or
execute the step. `Sum.inl` ends `Think`; `Sum.inr` continues. -/
def masterIter (wk : WkFun) (st : MState) : Sum MasterOutcome MState :=
  let orch1 := trimOrchContext st.orch 14
  let pres := planFn st.scratch st.script orch1 0
  match pres.2.2 with
  | PlanOutcome.perr e => Sum.inl (MasterOutcome.failure ("planning error: " ++ e))
  | PlanOutcome.ptext t => Sum.inl (MasterOutcome.answer t)
  | PlanOutcome.pplan p =>
    match deadlockUpdate st.lastCompleted st.stuck (countCompleted p.steps) with
    | none => Sum.inl (MasterOutcome.answer deadlockText)
    | some ls =>
      let pass := lockPass st.lock p.steps
      match pass.next with
      | none =>
        if st.consolidation + 1 ≥ 3 then
          Sum.inl (MasterOutcome.answer consolidationText)
        else
          Sum.inr { st with
            script := pres.1, orch := pres.2.1 ++ [forcingMsg], lock := pass.lock,
            lastCompleted := ls.1, stuck := ls.2, consolidation := st.consolidation + 1 }
      | some s =>
        let wres := wk st.workerCalls st.scratch s.id ("TASK: " ++ s.description) s.tools
        let sr :=
          match wres.1 with
          | Except.error e => ("failed", "Error: " ++ e)
          | Except.ok r => ("completed", r)
        let scratch2 := scratchAppend wres.2 (stepResultBlock s.id sr.1 sr.2)
        Sum.inr { st with
          script := pres.1, scratch := scratch2,
          orch := pres.2.1 ++ [aiMsg ("Plan updated. Executed step " ++ toString s.id ++ "."),
            stepReportMsg s.id sr.1 (briefOf sr.2)],
          lock := pass.lock, lastCompleted := ls.1, stuck := ls.2, consolidation := 0,
          workerCalls := st.workerCalls + 1, trace := st.trace ++ [(s.id, sr.1)] }

/-- The orchestration loop with its iteration budget; exhausting the budget
returns the budget diagnostic (with a `nil` error). -/
def masterRun (wk : WkFun) : Nat → MState → MasterOutcome
  | 0, _ => MasterOutcome.answer budgetText
  | fuel + 1, st =>
    match masterIter wk st with
    | Sum.inl out => out
    | Sum.inr st2 => masterRun wk fuel st2

/-- The scratchpad header written at task start (brain.go:392). -/
def scratchHeader (input : String) : String :=
  "# Task Scratchpad\nInitial User Request: " ++ input ++ "\n"

/-- `MasterBrain.Think`: initialise the scratchpad file and the
orchestration context (system prompt, persisted history, the user input),
then run the loop with `maxSteps := 15`, fresh tool lock,
`lastCompletedCount := -1` and zeroed counters. -/
def masterThink (wk : WkFun) (script : List MasterResp) (plannerPrompt : String)
    (history : List MsgG) (input : String) : MasterOutcome :=
  masterRun wk 15 {
    script := script
    scratch := some (scratchHeader input)
    orch := sysMsg plannerPrompt :: history ++ [humanMsg input]
    lock := []
    lastCompleted := -1
    stuck := 0
    consolidation := 0
    workerCalls := 0
    trace := [] }

/-- `masterThink` instrumented to also return the execution trace: runs the
same loop but extracted so theorems can observe which steps were executed
with which final status. -/
def masterRunTrace (wk : WkFun) : Nat → MState → MasterOutcome × List (Int × String)
  | 0, st => (MasterOutcome.answer budgetText, st.trace)
  | fuel + 1, st =>
    match masterIter wk st with
    | Sum.inl out => (out, st.trace)
    | Sum.inr st2 => masterRunTrace wk fuel st2

/-- `masterThink` with the execution trace exposed. -/
def masterThinkTrace (wk : WkFun) (script : List MasterResp) (plannerPrompt : String)
    (history : List MsgG) (input : String) : MasterOutcome × List (Int × String) :=
  masterRunTrace wk 15 {
    script := script
    scratch := some (scratchHeader input)
    orch := sysMsg plannerPrompt :: history ++ [humanMsg input]
    lock := []
    lastCompleted := -1
    stuck := 0
    consolidation := 0
    workerCalls := 0
    trace := [] }

/-! ## Helper lemmas -/

/-- `find?` returns the first element satisfying the predicate. -/
theorem find_first_in_order {α : Type} (p : α → Bool) (l1 : List α) (x : α) (l2 : List α)
    (h1 : ∀ q ∈ l1, p q = false) (hx : p x = true) :
    (l1 ++ x :: l2).find? p = some x := by
  induction l1 with
  | nil => simp [List.find?, hx]
  | cons a l ih =>
    have ha : p a = false := h1 a (List.mem_cons_self a l)
    simp only [List.cons_append, List.find?]
    rw [ha]
    exact ih (fun q hq => h1 q (List.mem_cons_of_mem a hq))

/-! ## C3: PolicyEngine.Evaluate -/

/-- C3: `PolicyEngine.Evaluate` is total and pure: for every request it
returns exactly one of allow or deny and never an error; a tool on the
exact-name deny list is denied regardless of argument content; otherwise the
first matching pattern rule denies with that pattern as the reason
regardless of the tool name; with no match the request is allowed with the
default reason. -/
theorem C3_policy_evaluate (e : DefaultPolicyEngine) :
    (∀ req, (Evaluate e req).2 = none ∧
      ((Evaluate e req).1.effect = Effect.allow ∨ (Evaluate e req).1.effect = Effect.deny)) ∧
    (∀ t a a' chat chat', e.deniedTools.contains t = true →
      Evaluate e ⟨t, a, chat⟩ = Evaluate e ⟨t, a', chat'⟩ ∧
      (Evaluate e ⟨t, a, chat⟩).1 = ⟨Effect.deny, deniedToolReason t⟩) ∧
    (∀ t a chat ps1 p ps2, e.deniedTools.contains t = false →
      e.deniedRegex = ps1 ++ p :: ps2 →
      (∀ q ∈ ps1, q.isMatch a = false) → p.isMatch a = true →
      (Evaluate e ⟨t, a, chat⟩).1 = ⟨Effect.deny, deniedPatternReason p.src⟩) ∧
    (∀ t t' a chat chat', e.deniedTools.contains t = false →
      e.deniedTools.contains t' = false →
      Evaluate e ⟨t, a, chat⟩ = Evaluate e ⟨t', a, chat'⟩) ∧
    (∀ t a chat, e.deniedTools.contains t = false →
      (∀ q ∈ e.deniedRegex, q.isMatch a = false) →
      (Evaluate e ⟨t, a, chat⟩).1 = ⟨Effect.allow, defaultAllowReason⟩) := by
  refine ⟨?_, ?_, ?_, ?_, ?_⟩
  · intro req
    unfold Evaluate
    split
    · exact ⟨rfl, Or.inr rfl⟩
    · split
      · exact ⟨rfl, Or.inr rfl⟩
      · exact ⟨rfl, Or.inl rfl⟩
  · intro t a a' chat chat' ht
    have htm : t ∈ e.deniedTools := by simpa using ht
    constructor <;> simp [Evaluate, htm]
  · intro t a chat ps1 p ps2 ht hreg h1 hp
    have htm : t ∉ e.deniedTools := by simpa using ht
    have hfind : e.deniedRegex.find? (fun q => q.isMatch a) = some p := by
      rw [hreg]
      exact find_first_in_order (fun q => q.isMatch a) ps1 p ps2 h1 hp
    simp [Evaluate, htm, hfind]
  · intro t t' a chat chat' ht ht'
    have htm : t ∉ e.deniedTools := by simpa using ht
    have htm' : t' ∉ e.deniedTools := by simpa using ht'
    simp [Evaluate, htm, htm']
  · intro t a chat ht hnone
    have htm : t ∉ e.deniedTools := by simpa using ht
    have hfind : e.deniedRegex.find? (fun q => q.isMatch a) = none := by
      rw [List.find?_eq_none]
      intro q hq
      simp [hnone q hq]
    simp [Evaluate, htm, hfind]

/-- Witness for C3 at a concrete engine and requests. -/
theorem C3_policy_evaluate_witness :
    (Evaluate ⟨["shell"], [⟨"rm", fun s => s = "rm -rf"⟩]⟩ ⟨"shell", "ls", "c1"⟩).1 =
      ⟨Effect.deny, deniedToolReason "shell"⟩ ∧
    (Evaluate ⟨["shell"], [⟨"rm", fun s => s = "rm -rf"⟩]⟩ ⟨"search", "rm -rf", "c1"⟩).1 =
      ⟨Effect.deny, deniedPatternReason "rm"⟩ ∧
    (Evaluate ⟨["shell"], [⟨"rm", fun s => s = "rm -rf"⟩]⟩ ⟨"search", "cats", "c1"⟩).1 =
      ⟨Effect.allow, defaultAllowReason⟩ := by
  refine ⟨?_, ?_, ?_⟩
  · exact (C3_policy_evaluate ⟨["shell"], [⟨"rm", fun s => s = "rm -rf"⟩]⟩).2.1
      "shell" "ls" "ls" "c1" "c1" (by decide) |>.2
  · exact (C3_policy_evaluate ⟨["shell"], [⟨"rm", fun s => s = "rm -rf"⟩]⟩).2.2.1
      "search" "rm -rf" "c1" [] ⟨"rm", fun s => s = "rm -rf"⟩ [] (by decide) rfl
      (by intro q hq; simp at hq) (by decide)
  · exact (C3_policy_evaluate ⟨["shell"], [⟨"rm", fun s => s = "rm -rf"⟩]⟩).2.2.2.2
      "search" "cats" "c1" (by decide)
      (by intro q hq; simp at hq; subst hq; decide)

/-! ## C4: capability retry backoff -/

/-- The number of `tool.Execute` calls grows by at most one per remaining
loop iteration. -/
theorem retryGo_attempts_le (pol : Except String GResult) (name : String)
    (exec : Nat → ExecOutcome) :
    ∀ fuel i backoff lastErr result att delays,
      (retryGo pol name exec fuel i backoff lastErr result att delays).attempts ≤ att + fuel := by
  intro fuel
  induction fuel with
  | zero => intro i backoff lastErr result att delays; simp [retryGo]
  | succ n ih =>
    intro i backoff lastErr result att delays
    unfold retryGo
    cases pol with
    | error e => show att ≤ att + (n + 1); omega
    | ok pr =>
      dsimp only
      by_cases hd : pr.effect = Effect.deny
      · simp only [hd, if_pos rfl]
        show att ≤ att + (n + 1); omega
      · rw [if_neg hd]
        cases hexec : exec i with
        | ok res => show att + 1 ≤ att + (n + 1); omega
        | fail res msg timedOut =>
          cases timedOut with
          | true =>
            show att + 1 ≤ att + (n + 1); omega
          | false =>
            show (retryGo (Except.ok pr) name exec n (i + 1) (backoff * 2) (some msg) res
              (att + 1) (delays ++ [backoff])).attempts ≤ att + (n + 1)
            exact le_trans (ih _ _ _ _ _ _) (by omega)

/-- C4: for a capability invocation that keeps failing with a non-timeout
execution error, the retry logic makes at most 3 attempts total and sleeps
the backoff sequence 1s, 2s, 4s (doubling between attempts); a timeout on
the first attempt breaks immediately with zero retries and no backoff. -/
theorem C4_retry_backoff :
    (∀ pol name exec, (executeWithRetry pol name exec).attempts ≤ 3) ∧
    (∀ (pr : GResult) name exec (r m : Nat → String), pr.effect = Effect.allow →
      (∀ i, i < 3 → exec i = ExecOutcome.fail (r i) (m i) false) →
      executeWithRetry (Except.ok pr) name exec = ⟨r 2, some (m 2), 3, [1, 2, 4]⟩) ∧
    (∀ (pr : GResult) name exec res msg, pr.effect = Effect.allow →
      exec 0 = ExecOutcome.fail res msg true →
      executeWithRetry (Except.ok pr) name exec = ⟨toolTimeoutText name, some msg, 1, []⟩) := by
  refine ⟨?_, ?_, ?_⟩
  · intro pol name exec
    exact retryGo_attempts_le pol name exec 3 0 1 none "" 0 []
  · intro pr name exec r m hpr hfail
    have h0 := hfail 0 (by omega)
    have h1 := hfail 1 (by omega)
    have h2 := hfail 2 (by omega)
    have hd : ¬ pr.effect = Effect.deny := by rw [hpr]; intro h; cases h
    simp [executeWithRetry, retryGo, hd, h0, h1, h2]
  · intro pr name exec res msg hpr h0
    have hd : ¬ pr.effect = Effect.deny := by rw [hpr]; intro h; cases h
    simp [executeWithRetry, retryGo, hd, h0]

/-- Witness for C4 at concrete executions. -/
theorem C4_retry_backoff_witness :
    executeWithRetry (Except.ok ⟨Effect.allow, defaultAllowReason⟩) "scraper"
      (fun i => ExecOutcome.fail ("partial" ++ toString i) ("err" ++ toString i) false) =
      ⟨"partial2", some "err2", 3, [1, 2, 4]⟩ ∧
    executeWithRetry (Except.ok ⟨Effect.allow, defaultAllowReason⟩) "scraper"
      (fun _ => ExecOutcome.fail "" "context deadline exceeded" true) =
      ⟨toolTimeoutText "scraper", some "context deadline exceeded", 1, []⟩ := by
  constructor
  · exact C4_retry_backoff.2.1 ⟨Effect.allow, defaultAllowReason⟩ "scraper" _
      (fun i => "partial" ++ toString i) (fun i => "err" ++ toString i) rfl
      (fun i _ => rfl)
  · exact C4_retry_backoff.2.2 ⟨Effect.allow, defaultAllowReason⟩ "scraper" _
      "" "context deadline exceeded" rfl rfl

/-! ## C1: tool-lock invariant -/

/-- Looking a key up after erasing it yields nothing. -/
theorem lockFind_erase (l : LockMap) (k : Int) : lockFind (lockErase l k) k = none := by
  induction l with
  | nil => rfl
  | cons p rest ih =>
    by_cases hk : p.1 = k
    · simpa [lockErase, hk] using ih
    · simpa [lockErase, lockFind, hk] using ih

/-- C1: the first time a pending step with a non-empty tool set is observed,
its tool set is locked; on every later iteration in which the step is still
pending, a proposed (possibly widened) tool set is forced back to the locked
value; observing the step as failed releases the lock, after which a fresh
proposal is accepted as the new tool set. -/
theorem C1_tool_lock_invariant (id : Int) (d d2 d3 d4 res : String)
    (ts1 ts2 ts3 : List String) (h1 : ts1 ≠ []) :
    -- (a) first sight of the pending step: the tool set is locked and kept
    lockPass [] [⟨id, d, "pending", res, ts1⟩] =
      ⟨[(id, ts1)], [⟨id, d, "pending", res, ts1⟩], some ⟨id, d, "pending", res, ts1⟩⟩ ∧
    -- (b) while locked and still pending, any proposal is forced back to the
    -- locked set (a widening ts2 of ts1 is discarded)
    (∀ lock : LockMap, lockFind lock id = some ts1 →
      (lockPass lock [⟨id, d2, "pending", res, ts2⟩]).steps = [⟨id, d2, "pending", res, ts1⟩] ∧
      (lockPass lock [⟨id, d2, "pending", res, ts2⟩]).lock = lock) ∧
    -- (c) observing the step as failed releases the lock
    (∀ lock : LockMap,
      lockFind (lockPass lock [⟨id, d3, "failed", res, ts2⟩]).lock id = none) ∧
    -- (d) once released, a subsequent proposal is accepted as the new tool set
    (∀ lock : LockMap, lockFind lock id = none → ts3 ≠ [] →
      (lockPass lock [⟨id, d4, "pending", res, ts3⟩]).steps = [⟨id, d4, "pending", res, ts3⟩] ∧
      lockFind (lockPass lock [⟨id, d4, "pending", res, ts3⟩]).lock id = some ts3) := by
  refine ⟨?_, ?_, ?_, ?_⟩
  · have hlen : ts1.length > 0 := List.length_pos.mpr h1
    simp [lockPass, lockPassGo, lockStepUpdate, lockFind, lockAdd, lockErase, hlen]
  · intro lock hfind
    constructor <;> simp [lockPass, lockPassGo, lockStepUpdate, hfind]
  · intro lock
    simp only [lockPass, lockPassGo, lockStepUpdate]
    simpa using lockFind_erase lock id
  · intro lock hfind h3
    have hlen : ts3.length > 0 := List.length_pos.mpr h3
    have hfind' : lock.find? (fun p => decide (p.1 = id)) = none := by
      unfold lockFind at hfind
      cases h : lock.find? (fun p => decide (p.1 = id)) with
      | none => rfl
      | some p => rw [h] at hfind; cases hfind
    refine ⟨?_, ?_⟩ <;>
      simp [lockPass, lockPassGo, lockStepUpdate, lockFind, lockAdd, lockErase, hfind', hlen]

/-- Witness for C1: a step first seen pending with tools A,B keeps them when
a later proposal widens to A,B,C; after the step fails, a proposal of A,C is
accepted. -/
theorem C1_tool_lock_invariant_witness :
    lockPass [] [⟨7, "fetch the page", "pending", "", ["A", "B"]⟩] =
      ⟨[(7, ["A", "B"])], [⟨7, "fetch the page", "pending", "", ["A", "B"]⟩],
        some ⟨7, "fetch the page", "pending", "", ["A", "B"]⟩⟩ ∧
    (lockPass [(7, ["A", "B"])] [⟨7, "fetch the page", "pending", "", ["A", "B", "C"]⟩]).steps =
      [⟨7, "fetch the page", "pending", "", ["A", "B"]⟩] ∧
    lockFind (lockPass [(7, ["A", "B"])] [⟨7, "fetch the page", "failed", "", ["A", "B"]⟩]).lock 7 =
      none ∧
    (lockPass (lockPass [(7, ["A", "B"])]
        [⟨7, "fetch the page", "failed", "", ["A", "B"]⟩]).lock
        [⟨7, "fetch the page", "pending", "", ["A", "C"]⟩]).steps =
      [⟨7, "fetch the page", "pending", "", ["A", "C"]⟩] := by
  have h := C1_tool_lock_invariant 7 "fetch the page" "fetch the page" "fetch the page"
    "fetch the page" "" ["A", "B"] ["A", "B", "C"] ["A", "C"] (by decide)
  refine ⟨h.1, (h.2.1 [(7, ["A", "B"])] (by decide)).1, h.2.2.1 [(7, ["A", "B"])], ?_⟩
  exact (h.2.2.2 (lockPass [(7, ["A", "B"])]
    [⟨7, "fetch the page", "failed", "", ["A", "B"]⟩]).lock
    (h.2.2.1 [(7, ["A", "B"])]) (by decide)).1

/-! ## Concrete scenarios shared by the whole-engine theorems -/

/-- A step executor whose capability work always errors. -/
def wkFailing : WkFun := fun _ sc _ _ _ => (Except.error "tool exploded", sc)

/-- A step executor that always succeeds with a fixed answer. -/
def wkSucceeding : WkFun := fun _ sc _ _ _ => (Except.ok "fine", sc)

/-- A master response proposing the given plan. -/
def proposeResp (p : PlanG) : MasterResp := MasterResp.reply "" [MCall.propose (some p)]

/-- A plan with a single step that stays pending. -/
def stagnantPlan : PlanG := ⟨[⟨1, "keep trying", "pending", "", []⟩]⟩

/-- A plan whose only step is already completed. -/
def donePlan : PlanG := ⟨[⟨1, "already done", "completed", "", []⟩]⟩

/-! ## C2: deadlock detection -/

/-- From a state with `stuck < 4` prior consecutive non-increases, a run of
uniformly non-increasing completed counts aborts exactly when it makes the
counter reach 4. -/
theorem deadlockRun_stagnant (L : Int) :
    ∀ (plans : List (List StepG)) (s : Nat), s < 4 →
      (∀ p ∈ plans, countCompleted p ≤ L) →
      (deadlockRun L s plans = true ↔ 4 ≤ s + plans.length) := by
  intro plans
  induction plans with
  | nil =>
    intro s hs _
    simp [deadlockRun]
    omega
  | cons p rest ih =>
    intro s hs hle
    have hp : countCompleted p ≤ L := hle p (List.mem_cons_self p rest)
    by_cases h4 : s + 1 ≥ 4
    · simp [deadlockRun, deadlockUpdate, hp, h4]
      omega
    · have hrec := ih (s + 1) (by omega) (fun q hq => hle q (List.mem_cons_of_mem p hq))
      simp [deadlockRun, deadlockUpdate, hp, h4, hrec]
      omega

/-- C2: the Planner aborts with the deadlock diagnostic iff the completed
count fails to strictly increase for exactly 4 consecutive plan-producing
iterations: the per-iteration update aborts exactly on a non-increase with 3
prior consecutive non-increases, a strict increase resets the counter to 0,
and from a reset state a uniformly non-increasing run aborts iff it is at
least 4 iterations long (so 3 do not abort); instantiated on the full
orchestration loop with 5 stagnant proposals (abort) and 4 stagnant
proposals followed by an answer (no abort). -/
theorem C2_deadlock_abort (L : Int) (plans : List (List StepG)) :
    ((∀ p ∈ plans, countCompleted p ≤ L) →
      (deadlockRun L 0 plans = true ↔ 4 ≤ plans.length)) ∧
    (∀ last stuck c, deadlockUpdate last stuck c = none ↔ (c ≤ last ∧ 3 ≤ stuck)) ∧
    (∀ last stuck c, last < c → deadlockUpdate last stuck c = some (c, 0)) ∧
    (∀ last stuck c, c ≤ last → stuck < 3 →
      deadlockUpdate last stuck c = some (last, stuck + 1)) ∧
    masterThink wkFailing (List.replicate 5 (proposeResp stagnantPlan)) "P" [] "goal" =
      MasterOutcome.answer deadlockText ∧
    masterThink wkFailing (List.replicate 4 (proposeResp stagnantPlan) ++
        [MasterResp.reply "recovered" []]) "P" [] "goal" =
      MasterOutcome.answer "recovered" := by
  refine ⟨fun h => by simpa using deadlockRun_stagnant L plans 0 (by omega) h, ?_, ?_, ?_,
    by rfl, by rfl⟩
  · intro last stuck c
    unfold deadlockUpdate
    constructor
    · intro h
      by_cases hc : c ≤ last
      · rw [if_pos hc] at h
        by_cases h4 : stuck + 1 ≥ 4
        · exact ⟨hc, by omega⟩
        · rw [if_neg h4] at h; cases h
      · rw [if_neg hc] at h; cases h
    · intro ⟨hc, hs⟩
      rw [if_pos hc, if_pos (by omega)]
  · intro last stuck c hlt
    unfold deadlockUpdate
    rw [if_neg (by omega)]
  · intro last stuck c hc hs
    unfold deadlockUpdate
    rw [if_pos hc, if_neg (by omega)]

/-- Witness for C2: a concrete run of counts 0,0,0 (3 non-increases after
the initial reset) does not abort, while 0,0,0,0 does. -/
theorem C2_deadlock_abort_witness :
    (deadlockRun 0 0 [[], [], []] = true ↔ 4 ≤ 3) ∧
    (deadlockRun 0 0 [[], [], [], []] = true ↔ 4 ≤ 4) ∧
    deadlockUpdate 0 3 0 = none ∧
    deadlockUpdate 0 2 0 = some (0, 3) ∧
    deadlockUpdate 0 7 1 = some (1, 0) := by
  have h := C2_deadlock_abort 0 [[], [], []]
  have h4 := C2_deadlock_abort 0 [[], [], [], []]
  refine ⟨h.1 (by intro p hp; fin_cases hp <;> decide),
    h4.1 (by intro p hp; fin_cases hp <;> decide),
    (h.2.1 0 3 0).mpr (by omega),
    h.2.2.2.1 0 2 0 (by omega) (by omega),
    h.2.2.1 0 7 1 (by omega)⟩

/-! ## C7: consolidation forcing and bound -/

/-- C7: when a planning iteration yields a plan with no pending or failed
step and no final answer, the loop increments the consolidation counter and
injects the forcing instruction; once the counter reaches 3 it aborts with
the could-not-conclude diagnostic; executing a step resets the counter to
zero. Instantiated on the full loop: proposals whose steps are all
completed abort on the third consolidation turn, and a final answer on an
earlier turn is returned normally. -/
theorem C7_consolidation_bound (wk : WkFun) (st : MState) (sc : List MasterResp)
    (o2 : List MsgG) (p : PlanG) (l2 : Int × Nat)
    (hplan : planFn st.scratch st.script (trimOrchContext st.orch 14) 0 =
      (sc, o2, PlanOutcome.pplan p))
    (hdl : deadlockUpdate st.lastCompleted st.stuck (countCompleted p.steps) = some l2) :
    ((lockPass st.lock p.steps).next = none →
      (st.consolidation + 1 < 3 →
        masterIter wk st = Sum.inr { st with
          script := sc
          orch := o2 ++ [forcingMsg]
          lock := (lockPass st.lock p.steps).lock
          lastCompleted := l2.1
          stuck := l2.2
          consolidation := st.consolidation + 1 }) ∧
      (3 ≤ st.consolidation + 1 →
        masterIter wk st = Sum.inl (MasterOutcome.answer consolidationText))) ∧
    (∀ s, (lockPass st.lock p.steps).next = some s →
      ∃ st2, masterIter wk st = Sum.inr st2 ∧ st2.consolidation = 0) ∧
    masterThink wkSucceeding (List.replicate 5 (proposeResp donePlan)) "P" [] "goal" =
      MasterOutcome.answer consolidationText ∧
    masterThink wkSucceeding [proposeResp donePlan, proposeResp donePlan,
        MasterResp.reply "final" []] "P" [] "goal" =
      MasterOutcome.answer "final" := by
  refine ⟨?_, ?_, by rfl, by rfl⟩
  · intro hnext
    constructor
    · intro hlt
      unfold masterIter
      simp only [hplan, hdl, hnext]
      rw [if_neg (by omega)]
    · intro hge
      unfold masterIter
      simp only [hplan, hdl, hnext]
      rw [if_pos (by omega)]
  · intro s hnext
    unfold masterIter
    simp only [hplan, hdl, hnext]
    exact ⟨_, rfl, rfl⟩

/-- The iteration state used by the C7 witness: one all-completed proposal
pending in the script, fresh counters. -/
def stC7 : MState := ⟨[proposeResp donePlan], some "S", [sysMsg "P"], [], -1, 0, 0, 0, []⟩

/-- Witness for C7 at a concrete iteration state: with an all-completed
proposal the first consolidation turn injects the forcing instruction and
sets the counter to 1. -/
theorem C7_consolidation_bound_witness :
    masterIter wkSucceeding stC7 =
      Sum.inr ⟨[], some "S",
        [sysMsg "P", aiMsg "", toolMsg "propose_plan" "Plan received.", forcingMsg],
        [], 1, 0, 1, 0, []⟩ := by
  have hplan : planFn stC7.scratch stC7.script (trimOrchContext stC7.orch 14) 0 =
      ([], [sysMsg "P", aiMsg "", toolMsg "propose_plan" "Plan received."],
        PlanOutcome.pplan donePlan) := rfl
  have hdl : deadlockUpdate stC7.lastCompleted stC7.stuck (countCompleted donePlan.steps) =
      some (1, 0) := rfl
  have hnext : (lockPass stC7.lock donePlan.steps).next = none := rfl
  exact ((C7_consolidation_bound wkSucceeding stC7 _ _ donePlan (1, 0) hplan hdl).1
    hnext).1 (by decide)

/-! ## C5: capability timeout handling -/

/-- A worker environment whose only capability always hits the 30-second
per-call timeout. -/
def envTimeoutTool : WorkerEnv :=
  { registry := [⟨"fetch", "fetch a page",
      fun _ _ => ExecOutcome.fail "" "context deadline exceeded" true⟩]
    pol := fun _ _ => Except.ok ⟨Effect.allow, defaultAllowReason⟩
    jsonContent := fun s => some s
    osReadErr := "open logs/scratchpad_t.md: no such file or directory" }

/-- Worker script: call the timing-out capability, then answer. -/
def scriptTimeout : Nat → WResp := fun n =>
  if n = 0 then WResp.reply "" [⟨"1", "fetch", "https://x"⟩]
  else WResp.reply "done after timeout" []

/-- Counterexample to C5: a capability timeout does NOT cause an immediate
step failure. With a capability that times out on its first (and only)
attempt, the step run by the worker still returns `ok` — the timeout error is
absorbed into the transcript as an observation and the reasoning loop
continues to the next turn, which produces the step result. -/
theorem C5_counterexample :
    (workerThink envTimeoutTool scriptTimeout "sys" "TASK: get" none).out =
      Except.ok "done after timeout" ∧
    toolMsg "fetch" "Error: context deadline exceeded" ∈
      (workerThink envTimeoutTool scriptTimeout "sys" "TASK: get" none).msgs := by
  exact ⟨rfl, by decide⟩

/-- C5 amended: a capability-call timeout is non-retryable — the retry loop
breaks after the single timed-out attempt with no backoff, returning the
timeout result text and the execution error — but it does not fail the
step: the worker turns the error into an `Error: ...` observation appended
to the transcript, and the reasoning loop continues with the next turn. -/
theorem C5_amended_timeout_absorbed (pr : GResult) (hpr : pr.effect = Effect.allow)
    (name : String) (exec : Nat → ExecOutcome) (res msg : String)
    (h0 : exec 0 = ExecOutcome.fail res msg true) :
    executeWithRetry (Except.ok pr) name exec = ⟨toolTimeoutText name, some msg, 1, []⟩ ∧
    (∀ (env : WorkerEnv) scratch msgs (c : WCall) t,
      c.name ≠ "read_scratchpad" → c.name ≠ "write_scratchpad" →
      env.registry.find? (fun x => x.name = c.name) = some t →
      env.pol c.name c.args = Except.ok pr →
      t.exec c.args = exec →
      processCall env scratch msgs c = (scratch, msgs ++ [toolMsg c.name ("Error: " ++ msg)])) ∧
    (∀ (env : WorkerEnv) script turn fuel msgs scratch content calls, calls ≠ [] →
      script turn = WResp.reply content calls →
      workerLoop env script turn (fuel + 1) msgs scratch =
        workerLoop env script (turn + 1) fuel
          (calls.foldl (fun (acc : Option String × List MsgG) c =>
            processCall env acc.1 acc.2 c) (scratch, msgs ++ [aiMsg content])).2
          (calls.foldl (fun (acc : Option String × List MsgG) c =>
            processCall env acc.1 acc.2 c) (scratch, msgs ++ [aiMsg content])).1) := by
  have hd : ¬ pr.effect = Effect.deny := by rw [hpr]; intro h; cases h
  have hretry : ∀ nm, executeWithRetry (Except.ok pr) nm exec =
      ⟨toolTimeoutText nm, some msg, 1, []⟩ := by
    intro nm
    simp [executeWithRetry, retryGo, hd, h0]
  refine ⟨hretry name, ?_, ?_⟩
  · intro env scratch msgs c t hr hw hfind hpol hexec
    unfold processCall
    rw [if_neg hr, if_neg hw, hfind]
    simp only [hpol, hexec, hretry]
  · intro env script turn fuel msgs scratch content calls hne hscript
    conv_lhs => unfold workerLoop
    rw [hscript]
    simp only [List.isEmpty_eq_true, hne, if_false]

/-- Witness for C5 amended at the concrete timing-out environment. -/
theorem C5_amended_timeout_absorbed_witness :
    executeWithRetry (Except.ok ⟨Effect.allow, defaultAllowReason⟩) "fetch"
      (fun _ => ExecOutcome.fail "" "context deadline exceeded" true) =
      ⟨toolTimeoutText "fetch", some "context deadline exceeded", 1, []⟩ ∧
    processCall envTimeoutTool none [] ⟨"1", "fetch", "https://x"⟩ =
      (none, [toolMsg "fetch" "Error: context deadline exceeded"]) := by
  have h := C5_amended_timeout_absorbed ⟨Effect.allow, defaultAllowReason⟩ rfl "fetch"
    (fun _ => ExecOutcome.fail "" "context deadline exceeded" true) "" "context deadline exceeded"
    rfl
  refine ⟨h.1, ?_⟩
  exact h.2.1 envTimeoutTool none [] ⟨"1", "fetch", "https://x"⟩
    ⟨"fetch", "fetch a page", fun _ _ => ExecOutcome.fail "" "context deadline exceeded" true⟩
    (by decide) (by decide) rfl rfl rfl

/-! ## C6: policy deny is a non-fatal observation -/

/-- A worker environment with a searchable capability and a policy-denied
shell capability. -/
def envDenyShell : WorkerEnv :=
  { registry := [⟨"search", "web search", fun _ _ => ExecOutcome.ok "search results"⟩,
                 ⟨"shell", "run a command", fun _ _ => ExecOutcome.ok "should never run"⟩]
    pol := fun n _ =>
      if n = "shell" then Except.ok ⟨Effect.deny, deniedToolReason "shell"⟩
      else Except.ok ⟨Effect.allow, defaultAllowReason⟩
    jsonContent := fun s => some s
    osReadErr := "open logs/scratchpad_t.md: no such file or directory" }

/-- Worker script of the first step: answer directly. -/
def wScriptStep1 : Nat → WResp := fun _ => WResp.reply "step one done" []

/-- Worker script of the second step: request the denied shell capability,
then adapt and answer. -/
def wScriptStep2 : Nat → WResp := fun n =>
  if n = 0 then WResp.reply "" [⟨"1", "shell", "echo hi"⟩]
  else WResp.reply "The shell capability was denied by policy." []

/-- The composed step executor of the end-to-end scenario: the real worker
loop run against `envDenyShell` with the per-step scripts. -/
def wkE2E : WkFun := fun idx scratch _ input _ =>
  let w := workerThink envDenyShell (if idx = 0 then wScriptStep1 else wScriptStep2) "W"
    input scratch
  (w.out, w.scratch)

/-- Two-step plan, both pending; step 2 only has the denied capability. -/
def planTwoA : PlanG :=
  ⟨[⟨1, "find facts", "pending", "", ["search"]⟩, ⟨2, "run shell", "pending", "", ["shell"]⟩]⟩

/-- The same plan after step 1 completed. -/
def planTwoB : PlanG :=
  ⟨[⟨1, "find facts", "completed", "", ["search"]⟩, ⟨2, "run shell", "pending", "", ["shell"]⟩]⟩

/-- The final answer of the end-to-end scenario. -/
def e2eFinalText : String := "Final: facts found; the shell step was blocked by policy"

/-- The master script of the end-to-end scenario. -/
def e2eScript : List MasterResp :=
  [proposeResp planTwoA, proposeResp planTwoB, MasterResp.reply e2eFinalText []]

/-- C6: a policy deny short-circuits to a non-error result string carrying
the denial reason with zero capability executions; inside the worker the
denial text is appended to the transcript as an observation; and end to
end, a two-step plan where the only capability of step 2 is policy-denied
completes with a final answer and both steps marked completed — the task
does not abort as a failure. -/
theorem C6_policy_deny_nonfatal (reason : String) :
    (∀ name exec, executeWithRetry (Except.ok ⟨Effect.deny, reason⟩) name exec =
      ⟨"Policy Error: " ++ reason, none, 0, []⟩) ∧
    (∀ (env : WorkerEnv) scratch msgs (c : WCall) t,
      c.name ≠ "read_scratchpad" → c.name ≠ "write_scratchpad" →
      env.registry.find? (fun x => x.name = c.name) = some t →
      env.pol c.name c.args = Except.ok ⟨Effect.deny, reason⟩ →
      processCall env scratch msgs c =
        (scratch, msgs ++ [toolMsg c.name ("Policy Error: " ++ reason)])) ∧
    masterThinkTrace wkE2E e2eScript "P" [] "goal" =
      (MasterOutcome.answer e2eFinalText, [(1, "completed"), (2, "completed")]) := by
  have hret : ∀ name exec, executeWithRetry (Except.ok ⟨Effect.deny, reason⟩) name exec =
      ⟨"Policy Error: " ++ reason, none, 0, []⟩ := by
    intro name exec
    simp [executeWithRetry, retryGo]
  refine ⟨hret, ?_, by rfl⟩
  intro env scratch msgs c t hr hw hfind hpol
  unfold processCall
  rw [if_neg hr, if_neg hw, hfind]
  simp only [hpol, hret]

/-- Witness for C6 at the concrete denied-shell environment. -/
theorem C6_policy_deny_nonfatal_witness :
    executeWithRetry (Except.ok ⟨Effect.deny, deniedToolReason "shell"⟩) "shell"
      (fun _ => ExecOutcome.ok "should never run") =
      ⟨"Policy Error: " ++ deniedToolReason "shell", none, 0, []⟩ ∧
    processCall envDenyShell none [] ⟨"1", "shell", "echo hi"⟩ =
      (none, [toolMsg "shell" ("Policy Error: " ++ deniedToolReason "shell")]) := by
  have h := C6_policy_deny_nonfatal (deniedToolReason "shell")
  refine ⟨h.1 "shell" _, ?_⟩
  exact h.2.1 envDenyShell none [] ⟨"1", "shell", "echo hi"⟩
    ⟨"shell", "run a command", fun _ _ => ExecOutcome.ok "should never run"⟩
    (by decide) (by decide) rfl rfl

/-! ## C8: scratchpad round-trip -/

/-- Counterexample to C8: a read for a task with no prior write does not
always yield the explicit empty sentinel — the worker `read_scratchpad`
built-in on an absent scratchpad file yields a formatted OS error text as
the observation, which differs from the empty sentinel the master read path
produces. -/
theorem C8_counterexample :
    processCall envTimeoutTool none [] ⟨"1", "read_scratchpad", ""⟩ =
      (none, [toolMsg "read_scratchpad"
        "Error reading scratchpad: open logs/scratchpad_t.md: no such file or directory"]) ∧
    workerReadScratch envTimeoutTool none ≠ masterReadScratch none := by
  exact ⟨by decide, by decide⟩

/-- C8 amended: a write of X followed by a read for the same task yields
text containing X — the worker write appends X under the Worker Data
heading, preserving all earlier content, and both read paths then return
the full text; appends never overwrite. The read of the master planner on an
absent or empty scratchpad yields the explicit empty sentinel and never an
error, while the worker read of an absent scratchpad file yields an
`Error reading scratchpad` observation string instead of the sentinel. -/
theorem C8_amended_scratchpad_roundtrip :
    -- worker write followed by worker read: the text contains X, with all
    -- earlier content preserved as a prefix
    (∀ (env : WorkerEnv) (scratch : Option String) (x : String),
      workerReadScratch env (scratchAppend scratch (workerDataHeading ++ x ++ "\n")) =
        (scratch.getD "" ++ workerDataHeading) ++ x ++ "\n") ∧
    -- appends never overwrite: the old content is a prefix of the new
    (∀ (s : Option String) (txt : String),
      (scratchAppend s txt).getD "" = s.getD "" ++ txt) ∧
    -- the worker write_scratchpad call performs exactly this append
    (∀ (env : WorkerEnv) scratch msgs (c : WCall) (x : String),
      c.name = "write_scratchpad" → env.jsonContent c.args = some x →
      processCall env scratch msgs c =
        (scratchAppend scratch (workerDataHeading ++ x ++ "\n"),
          msgs ++ [toolMsg c.name
            ("Successfully wrote " ++ toString x.length ++ " bytes to scratchpad.")])) ∧
    -- the master read of an absent or empty scratchpad is the sentinel
    masterReadScratch none = "Scratchpad is empty or doesn" ++ apos ++ "t exist yet." ∧
    masterReadScratch (some "") = "Scratchpad is empty or doesn" ++ apos ++ "t exist yet." ∧
    -- master read after a write also returns the full appended text
    (∀ (scratch : Option String) (x : String),
      masterReadScratch (scratchAppend scratch (workerDataHeading ++ x ++ "\n")) =
        (scratch.getD "" ++ workerDataHeading) ++ x ++ "\n") := by
  refine ⟨?_, ?_, ?_, rfl, rfl, ?_⟩
  · intro env scratch x
    show scratch.getD "" ++ (workerDataHeading ++ x ++ "\n") =
      (scratch.getD "" ++ workerDataHeading) ++ x ++ "\n"
    simp [String.append_assoc]
  · intro s txt
    rfl
  · intro env scratch msgs c x hc hjson
    unfold processCall
    rw [hc]
    rw [if_neg (by decide), if_pos rfl, hjson]
  · intro scratch x
    have hne : scratch.getD "" ++ (workerDataHeading ++ x ++ "\n") ≠ "" := by
      intro h
      have hl := congrArg String.length h
      simp [String.length_append] at hl
      have : ("\n" : String).length = 1 := by decide
      omega
    show masterReadScratch (some (scratch.getD "" ++ (workerDataHeading ++ x ++ "\n"))) = _
    unfold masterReadScratch
    simp only [Option.getD_some, if_neg hne]
    simp [String.append_assoc]

/-- Witness for C8 amended at a concrete scratchpad and text. -/
theorem C8_amended_scratchpad_roundtrip_witness :
    workerReadScratch envTimeoutTool
        (scratchAppend (some "# Task Scratchpad\n") (workerDataHeading ++ "X" ++ "\n")) =
      ("# Task Scratchpad\n" ++ workerDataHeading) ++ "X" ++ "\n" ∧
    processCall envTimeoutTool (some "# Task Scratchpad\n") [] ⟨"1", "write_scratchpad", "X"⟩ =
      (scratchAppend (some "# Task Scratchpad\n") (workerDataHeading ++ "X" ++ "\n"),
        [toolMsg "write_scratchpad" "Successfully wrote 1 bytes to scratchpad."]) := by
  have h := C8_amended_scratchpad_roundtrip
  refine ⟨h.1 envTimeoutTool (some "# Task Scratchpad\n") "X", ?_⟩
  have hw := h.2.2.1 envTimeoutTool (some "# Task Scratchpad\n") []
    ⟨"1", "write_scratchpad", "X"⟩ "X" rfl rfl
  simpa using hw

/-! ## C9: no backward transition from completed -/

/-- First proposal: step 1 completed, step 2 pending. -/
def planSwapA : PlanG :=
  ⟨[⟨1, "gather", "completed", "", []⟩, ⟨2, "report", "pending", "", []⟩]⟩

/-- Second proposal: step 1 back to pending, step 2 completed. -/
def planSwapB : PlanG :=
  ⟨[⟨1, "gather", "pending", "", []⟩, ⟨2, "report", "completed", "", []⟩]⟩

/-- Counterexample to C9: step 1 is observed with status completed in the
first planning iteration, yet the proposal of the second iteration returns it to
pending and the engine accepts it — the trace shows step 1 executed in the
second iteration, after it had been observed completed. -/
theorem C9_counterexample :
    masterThinkTrace wkSucceeding
        [proposeResp planSwapA, proposeResp planSwapB, MasterResp.reply "bye" []]
        "P" [] "goal" =
      (MasterOutcome.answer "bye", [(2, "completed"), (1, "completed")]) := by
  rfl

/-- Once the selection of the pass has been made, later steps do not change
it. -/
theorem lockPassGo_next_some (x : StepG) :
    ∀ (steps : List StepG) (lock : LockMap),
      (lockPassGo lock (some x) steps).next = some x := by
  intro steps
  induction steps with
  | nil => intro lock; rfl
  | cons s rest ih =>
    intro lock
    simp only [lockPassGo]
    exact ih _

/-- The per-step update never changes the status or id of a step. -/
theorem lockStepUpdate_preserves (lock : LockMap) (s : StepG) :
    (lockStepUpdate lock s).2.status = s.status ∧ (lockStepUpdate lock s).2.id = s.id := by
  unfold lockStepUpdate
  split
  · exact ⟨rfl, rfl⟩
  · split
    · split
      · exact ⟨rfl, rfl⟩
      · split
        · exact ⟨rfl, rfl⟩
        · exact ⟨rfl, rfl⟩
    · exact ⟨rfl, rfl⟩

/-- C9 amended: step statuses are taken entirely from each fresh plan
proposal — the enforcement pass preserves the proposed statuses and ids
unchanged (only tool sets are corrected), and it selects a step for
execution exactly when the proposal contains a pending or failed step,
regardless of any status the step was observed with earlier; nothing
prevents a proposal from returning a completed step to pending or failed. -/
theorem C9_amended_status_from_proposals (lock : LockMap) (steps : List StepG) :
    ((lockPass lock steps).steps.map (fun s => s.status) = steps.map (fun s => s.status)) ∧
    ((lockPass lock steps).steps.map (fun s => s.id) = steps.map (fun s => s.id)) ∧
    ((lockPass lock steps).next = none ↔
      ∀ s ∈ steps, ¬(s.status = "pending" ∨ s.status = "failed")) := by
  have hstat : ∀ (l : List StepG) (lk : LockMap) (nxt : Option StepG),
      (lockPassGo lk nxt l).steps.map (fun s => s.status) = l.map (fun s => s.status) := by
    intro l
    induction l with
    | nil => intro lk nxt; rfl
    | cons s rest ih =>
      intro lk nxt
      simp only [lockPassGo, List.map_cons]
      exact congrArg₂ _ (lockStepUpdate_preserves lk s).1 (ih _ _)
  have hid : ∀ (l : List StepG) (lk : LockMap) (nxt : Option StepG),
      (lockPassGo lk nxt l).steps.map (fun s => s.id) = l.map (fun s => s.id) := by
    intro l
    induction l with
    | nil => intro lk nxt; rfl
    | cons s rest ih =>
      intro lk nxt
      simp only [lockPassGo, List.map_cons]
      exact congrArg₂ _ (lockStepUpdate_preserves lk s).2 (ih _ _)
  refine ⟨hstat steps lock none, hid steps lock none, ?_⟩
  unfold lockPass
  induction steps generalizing lock with
  | nil => simp [lockPassGo]
  | cons s rest ih =>
    by_cases hs : s.status = "pending" ∨ s.status = "failed"
    · simp only [lockPassGo, if_pos hs, lockPassGo_next_some]
      constructor
      · intro h; cases h
      · intro h
        exact absurd hs (h s (List.mem_cons_self s rest))
    · simp only [lockPassGo, if_neg hs]
      rw [ih]
      constructor
      · intro h t ht
        rcases List.mem_cons.mp ht with h1 | h2
        · rw [h1]; exact hs
        · exact h t h2
      · intro h t ht
        exact h t (List.mem_cons_of_mem s ht)

/-! ## C10: worker manifest filtering -/

/-- Names of a manifest. -/
def namesOf (l : List ToolDef) : List String := l.map (fun t => t.name)

/-- A name occurs exactly once in a manifest obtained by conditionally
appending the built-in carrying it: if it was present (with multiplicity at
most one) it is kept, otherwise the built-in supplies it. -/
theorem count_builtin_once (base : List ToolDef) (d : ToolDef) (nm : String)
    (hd : d.name = nm) (hnd : (namesOf base).Nodup) :
    ((namesOf (if base.any (fun t => t.name = nm) then base else base ++ [d])).count nm) = 1 := by
  by_cases h : base.any (fun t => t.name = nm)
  · rw [if_pos h]
    rcases List.any_eq_true.mp h with ⟨t, ht, hname⟩
    have hmem : nm ∈ namesOf base :=
      List.mem_map.mpr ⟨t, ht, of_decide_eq_true hname⟩
    exact List.count_eq_one_of_mem hnd hmem
  · rw [if_neg h]
    have hnot : nm ∉ namesOf base := by
      intro hmem
      rcases List.mem_map.mp hmem with ⟨t, ht, hname⟩
      exact h (List.any_eq_true.mpr ⟨t, ht, decide_eq_true hname⟩)
    have h0 : (namesOf base).count nm = 0 := List.count_eq_zero.mpr hnot
    show ((base ++ [d]).map (fun t => t.name)).count nm = 1
    rw [List.map_append]
    rw [List.count_append]
    show (namesOf base).count nm + ([d.name].count nm) = 1
    rw [h0, hd]
    simp

/-- Appending a definition of one built-in name does not change the count of
the other. -/
theorem count_other_name (base : List ToolDef) (d : ToolDef) (nm other : String)
    (hne : d.name ≠ other) :
    (namesOf (if base.any (fun t => t.name = nm) then base else base ++ [d])).count other =
      (namesOf base).count other := by
  by_cases h : base.any (fun t => t.name = nm)
  · rw [if_pos h]
  · rw [if_neg h]
    unfold namesOf
    rw [List.map_append, List.count_append]
    have h0 : (([d].map (fun t => t.name)).count other) = 0 := by
      show ([d.name].count other) = 0
      simp only [List.count_singleton']
      rw [if_neg hne]
    rw [h0]
    omega

/-- The two conditional built-in appends leave each built-in name occurring
exactly once in the manifest. -/
theorem build_counts (base : List ToolDef) (hnb : (namesOf base).Nodup) :
    (namesOf (if base.any (fun t => t.name = "write_scratchpad")
        then (if base.any (fun t => t.name = "read_scratchpad") then base
          else base ++ [readScratchDef])
        else (if base.any (fun t => t.name = "read_scratchpad") then base
          else base ++ [readScratchDef]) ++ [writeScratchDef])).count "read_scratchpad" = 1 ∧
    (namesOf (if base.any (fun t => t.name = "write_scratchpad")
        then (if base.any (fun t => t.name = "read_scratchpad") then base
          else base ++ [readScratchDef])
        else (if base.any (fun t => t.name = "read_scratchpad") then base
          else base ++ [readScratchDef]) ++ [writeScratchDef])).count "write_scratchpad" = 1 := by
  have hr1 : (namesOf (if base.any (fun t => t.name = "read_scratchpad") then base
      else base ++ [readScratchDef])).count "read_scratchpad" = 1 :=
    count_builtin_once base readScratchDef "read_scratchpad" rfl hnb
  have hwl1 : (namesOf (if base.any (fun t => t.name = "read_scratchpad") then base
      else base ++ [readScratchDef])).count "write_scratchpad" =
      (namesOf base).count "write_scratchpad" :=
    count_other_name base readScratchDef "read_scratchpad" "write_scratchpad" (by decide)
  by_cases hW : base.any (fun t => t.name = "write_scratchpad")
  · rw [if_pos hW]
    refine ⟨hr1, ?_⟩
    rw [hwl1]
    rcases List.any_eq_true.mp hW with ⟨t, ht, hname⟩
    exact List.count_eq_one_of_mem hnb
      (List.mem_map.mpr ⟨t, ht, of_decide_eq_true hname⟩)
  · rw [if_neg hW]
    have hw0 : (namesOf base).count "write_scratchpad" = 0 := by
      rw [List.count_eq_zero]
      intro hmem
      rcases List.mem_map.mp hmem with ⟨t, ht, hname⟩
      exact hW (List.any_eq_true.mpr ⟨t, ht, decide_eq_true hname⟩)
    constructor
    · show (((if base.any (fun t => t.name = "read_scratchpad") then base
        else base ++ [readScratchDef]) ++ [writeScratchDef]).map
          (fun t => t.name)).count "read_scratchpad" = 1
      rw [List.map_append, List.count_append]
      have : (([writeScratchDef].map (fun t => t.name)).count "read_scratchpad") = 0 := by
        decide
      rw [this]
      exact hr1
    · show (((if base.any (fun t => t.name = "read_scratchpad") then base
        else base ++ [readScratchDef]) ++ [writeScratchDef]).map
          (fun t => t.name)).count "write_scratchpad" = 1
      rw [List.map_append, List.count_append]
      have h1 : (([writeScratchDef].map (fun t => t.name)).count "write_scratchpad") = 1 := by
        decide
      rw [h1]
      show (namesOf (if base.any (fun t => t.name = "read_scratchpad") then base
        else base ++ [readScratchDef])).count "write_scratchpad" + 1 = 1
      rw [hwl1, hw0]

/-- C10: a `nil` allowed-tools list disables whitelist filtering entirely
(every registered capability is offered), a non-`nil` list (including the
empty one) offers exactly the registered capabilities whose names it
contains, and in both cases the scratchpad built-ins `read_scratchpad` and
`write_scratchpad` appear in the offered manifest exactly once. -/
theorem C10_manifest_filter (registry : List ToolDef)
    (hnd : (namesOf registry).Nodup) :
    (∀ t ∈ registry, t ∈ buildWorkerTools registry none) ∧
    (∀ ws t, t ∈ registry → ws.contains t.name = true →
      t ∈ buildWorkerTools registry (some ws)) ∧
    (∀ ws t, t ∈ buildWorkerTools registry (some ws) →
      (t ∈ registry ∧ ws.contains t.name = true) ∨ t = readScratchDef ∨ t = writeScratchDef) ∧
    (∀ allowed, ((namesOf (buildWorkerTools registry allowed)).count "read_scratchpad" = 1 ∧
      (namesOf (buildWorkerTools registry allowed)).count "write_scratchpad" = 1)) := by
  have hmem_build : ∀ (allowed : Option (List String)) t,
      t ∈ registry.filter (fun t => match allowed with
        | none => true
        | some ws => ws.contains t.name) →
      t ∈ buildWorkerTools registry allowed := by
    intro allowed t ht
    unfold buildWorkerTools
    dsimp only
    split
    · split
      · exact ht
      · exact List.mem_append_left _ ht
    · split
      · exact List.mem_append_left _ ht
      · exact List.mem_append_left _ (List.mem_append_left _ ht)
  refine ⟨?_, ?_, ?_, ?_⟩
  · intro t ht
    exact hmem_build none t (List.mem_filter.mpr ⟨ht, rfl⟩)
  · intro ws t ht hws
    exact hmem_build (some ws) t (List.mem_filter.mpr ⟨ht, by simpa using hws⟩)
  · intro ws t ht
    unfold buildWorkerTools at ht
    dsimp only at ht
    have hbase : ∀ u, u ∈ registry.filter (fun t => ws.contains t.name) →
        u ∈ registry ∧ ws.contains u.name = true := by
      intro u hu
      have := List.mem_filter.mp hu
      exact ⟨this.1, by simpa using this.2⟩
    rcases Decidable.em ((registry.filter (fun t => ws.contains t.name)).any
        (fun t => t.name = "write_scratchpad") = true) with hW | hW
    all_goals rcases Decidable.em ((registry.filter (fun t => ws.contains t.name)).any
        (fun t => t.name = "read_scratchpad") = true) with hR | hR
    all_goals simp only [hW, hR, if_true, if_false, Bool.not_eq_true] at ht
    · exact Or.inl (hbase t ht)
    · rcases List.mem_append.mp ht with h | h
      · exact Or.inl (hbase t h)
      · exact Or.inr (Or.inl (List.mem_singleton.mp h))
    · rcases List.mem_append.mp ht with h | h
      · exact Or.inl (hbase t h)
      · exact Or.inr (Or.inr (List.mem_singleton.mp h))
    · rcases List.mem_append.mp ht with h | h
      · rcases List.mem_append.mp h with h2 | h2
        · exact Or.inl (hbase t h2)
        · exact Or.inr (Or.inl (List.mem_singleton.mp h2))
      · exact Or.inr (Or.inr (List.mem_singleton.mp h))
  · intro allowed
    exact build_counts _
      (List.Nodup.sublist ((List.filter_sublist registry).map (fun t : ToolDef => t.name)) hnd)

/-- Witness for C10 at a concrete two-capability registry. -/
theorem C10_manifest_filter_witness :
    (⟨"search", "s"⟩ : ToolDef) ∈
      buildWorkerTools [⟨"search", "s"⟩, ⟨"shell", "sh"⟩] none ∧
    (⟨"shell", "sh"⟩ : ToolDef) ∈
      buildWorkerTools [⟨"search", "s"⟩, ⟨"shell", "sh"⟩] (some ["shell"]) ∧
    (namesOf (buildWorkerTools [⟨"search", "s"⟩, ⟨"shell", "sh"⟩]
      (some []))).count "read_scratchpad" = 1 ∧
    (namesOf (buildWorkerTools [⟨"search", "s"⟩, ⟨"shell", "sh"⟩]
      (some []))).count "write_scratchpad" = 1 := by
  have h := C10_manifest_filter [⟨"search", "s"⟩, ⟨"shell", "sh"⟩] (by decide)
  exact ⟨h.1 ⟨"search", "s"⟩ (by decide),
    h.2.1 ["shell"] ⟨"shell", "sh"⟩ (by decide) (by decide),
    (h.2.2.2 (some [])).1, (h.2.2.2 (some [])).2⟩

end Mishri
